import Mathlib

/-!
A shallow embedding of `GPyOpt/core/optimization.py`: the batch
acquisition-optimization core of a Bayesian-optimization loop (random,
adaptive/penalization, hybrid surrogate-refit and weighted-clustering batch
strategies), together with theorems checking the specified properties.

Points are lists of rationals (one coordinate per dimension).  External
numerical collaborators that the source file only consumes through their
interfaces — the scipy local minimizer, the uniform/grid samplers, the
normal CDF, square roots, matrix inverse and matrix square root, the
weighted-k-means helper `WKmeans` from `GPyOpt.util.general`, and the
surrogate-refit constructor `GPyOpt.methods.BayesianOptimization` — are
modelled as explicit function parameters (grouped in structures), so every
theorem quantifies over all behaviours of those collaborators that satisfy
their stated contracts.  Randomness of the uniform sampler is likewise
modelled by quantifying over arbitrary sampler functions.
-/

namespace GPyOpt

/-- A point of the search domain: one rational coordinate per dimension. -/
abbrev Point := List ℚ

/-- An ordered batch of candidate points. -/
abbrev Batch := List Point

/-- Box constraints: one `(lower, upper)` pair per dimension. -/
abbrev Bounds := List (ℚ × ℚ)

/-- Predicate: `x` lies in the box `bounds`: right dimension and every coordinate
between its lower and upper bound. -/
def inBounds (bounds : Bounds) (x : Point) : Prop :=
  x.length = bounds.length ∧ ∀ p ∈ bounds.zip x, p.1.1 ≤ p.2 ∧ p.2 ≤ p.1.2

instance (bounds : Bounds) (x : Point) : Decidable (inBounds bounds x) := by
  unfold inBounds; infer_instance

/-- The surrogate-model interface the source consumes: observed inputs `X`,
observed outputs `Y`, posterior mean and variance (`model.predict`), the
posterior-mean gradient (`model.predictive_gradients`, first component) and
kernel evaluation (`model.kern.K`). -/
structure Model where
  X : List Point
  Y : List ℚ
  predictMean : Point → ℚ
  predictVar : Point → ℚ
  predGrad : Point → List ℚ
  kernK : List Point → List (List ℚ)

/-- External scalar/matrix numerics: `np.sqrt`, `scipy.stats.norm.cdf`,
`np.linalg.inv` and `scipy.linalg.sqrtm`. -/
structure Numerics where
  sqrt : ℚ → ℚ
  cdf : ℚ → ℚ
  inv : List (List ℚ) → List (List ℚ)
  sqrtm : List (List ℚ) → List (List ℚ)

/-- External sampling and local optimization:
`samples_multidimensional_uniform(bounds, n)`, `multigrid(bounds, n)` and
`scipy.optimize.minimize` (returning the pair `(res.x, res.fun)`). -/
structure Optimizer where
  samplesUniform : Bounds → ℕ → List Point
  multigrid : Bounds → ℕ → List Point
  minimize : (Point → ℚ) → Point → Bounds → Point × ℚ

/-- Minimum of a list (`np.min` / Python `min`); `0` on the empty list, a
case the source never reaches (the model invariant is `N ≥ 1`). -/
def listMin : List ℚ → ℚ
  | [] => 0
  | [a] => a
  | a :: b :: t => min a (listMin (b :: t))

/-- Index of the first minimal element (`np.argmin`). -/
def argminIdx : List ℚ → ℕ
  | [] => 0
  | [_] => 0
  | a :: b :: t => if a ≤ listMin (b :: t) then 0 else argminIdx (b :: t) + 1

/-- Embeds `reduce(operator.mul, l, 1)`. -/
def listProd (l : List ℚ) : ℚ := l.foldl (· * ·) 1

/-- One entry of a matrix-vector product. -/
def dotProd (r v : List ℚ) : ℚ := ((r.zip v).map (fun p => p.1 * p.2)).sum

/-- Embeds `np.dot(M, v)` for a matrix and a column vector. -/
def matVecMul (M : List (List ℚ)) (v : List ℚ) : List ℚ :=
  M.map (fun row => dotProd row v)

/-- Squared Euclidean distance, `((x - x0)**2).sum(1)` for one row `x`. -/
def sumSq (x x0 : Point) : ℚ := ((x.zip x0).map (fun p => (p.1 - p.2) * (p.1 - p.2))).sum

/-- Embeds `(g*g).sum(1)` for one gradient row `g`. -/
def sumSqSelf (g : List ℚ) : ℚ := (g.map (fun v => v * v)).sum

/-- Embeds `np.sign`. -/
def npSign (q : ℚ) : ℚ := if 0 < q then 1 else if q < 0 then -1 else 0

/-- The function `hammer_function`'s clamped posterior variance at `x0`:
`pred = model.predict(x0)[1].copy(); pred[pred < 1e-16] = 1e-16`. -/
def hammer_clamped_var (model : Model) (x0 : Point) : ℚ :=
  if model.predictVar x0 < 1 / 10 ^ 16 then 1 / 10 ^ 16 else model.predictVar x0

/-- The divisor `s_x0 = s / L` of `hammer_function`, with
`s = np.sqrt(pred)` the posterior standard deviation at `x0`. -/
def hammer_s_scaled (num : Numerics) (model : Model) (x0 : Point) (L : ℚ) : ℚ :=
  num.sqrt (hammer_clamped_var model x0) / L

/-- Embeds `hammer_function(x, x0, L, Min, model)`: the exclusion value
`norm.cdf((sqrt(((x - x0)**2).sum(1)) - r_x0) / s_x0)` with
`r_x0 = (m - Min)/L`.  The source's `x0.reshape(1, len(x0))` is shape
plumbing with no content in this list-of-coordinates model. -/
def hammer_function (num : Numerics) (x x0 : Point) (L Min : ℚ) (model : Model) : ℚ :=
  num.cdf ((num.sqrt (sumSq x x0) - (model.predictMean x0 - Min) / L) /
    hammer_s_scaled num model x0 L)

/-- Embeds `penalized_acquisition(x, acquisition, bounds, model, X_batch, L, Min)`.
`bounds` is accepted and unused, as in the source.  Python's `X_batch=None`
is `none`; `L` and `Min` are plain rationals because the source only reads
them when `X_batch` is not `None` (callers pass `None` for all three
together, so the values carried in that case are irrelevant).  The source's
`reshape(X_batch, ...)` is again shape plumbing. -/
def penalized_acquisition (num : Numerics) (x : Point) (acq : Point → ℚ) (bounds : Bounds)
    (model : Model) (X_batch : Option Batch) (L Min : ℚ) : ℚ :=
  let sur_min := listMin (model.X.map (fun p => -acq p))
  let fval := -acq x - npSign sur_min * |sur_min|;
  -(match X_batch with
    | none => fval
    | some xb => xb.foldl (fun f xi => f * hammer_function num x xi L Min model) fval)

/-- The restart-sample draw shared verbatim by the fast and full optimizers:
`samples_multidimensional_uniform(bounds, restarts)` when
`method_type == 'random'`, else `multigrid(bounds, restarts)`. -/
def drawRestartSamples (opt : Optimizer) (bounds : Bounds) (restarts : ℕ)
    (method_type : String) : List Point :=
  if method_type = "random" then opt.samplesUniform bounds restarts
  else opt.multigrid bounds restarts

/-- Embeds `fast_acquisition_optimization`: score all restart samples with the raw
acquisition in one batched call (`pred_samples = acquisition(samples)`),
seed at the arg-min, and refine that single seed with one constrained local
minimization of `penalized_acquisition`. -/
def fast_acquisition_optimization (opt : Optimizer) (num : Numerics) (acq : Point → ℚ)
    (bounds : Bounds) (restarts : ℕ) (model : Model) (method_type : String)
    (X_batch : Option Batch) (L Min : ℚ) : Point :=
  let samples := drawRestartSamples opt bounds restarts method_type
  let pred_samples := samples.map acq
  (opt.minimize (fun x => penalized_acquisition num x acq bounds model X_batch L Min)
    (samples.getD (argminIdx pred_samples) []) bounds).1

/-- Embeds `full_acquisition_optimization`: run one constrained local minimization
of `penalized_acquisition` from every restart sample and return
`mins[np.argmin(fmins)]`. -/
def full_acquisition_optimization (opt : Optimizer) (num : Numerics) (acq : Point → ℚ)
    (bounds : Bounds) (restarts : ℕ) (model : Model) (method_type : String)
    (X_batch : Option Batch) (L Min : ℚ) : Point :=
  let samples := drawRestartSamples opt bounds restarts method_type
  let results := samples.map (fun s =>
    opt.minimize (fun x => penalized_acquisition num x acq bounds model X_batch L Min) s bounds)
  (results.getD (argminIdx (results.map Prod.snd)) ([], 0)).1

/-- Embeds `optimize_acquisition`: the four-way string dispatch.  Any other method
string leaves the Python result variable `res` unassigned, so returning it
raises; that failure is `none`. -/
def optimize_acquisition (opt : Optimizer) (num : Numerics) (acq : Point → ℚ)
    (bounds : Bounds) (restarts : ℕ) (method : String) (model : Model)
    (X_batch : Option Batch) (L Min : ℚ) : Option Point :=
  if method = "brute" then
    some (full_acquisition_optimization opt num acq bounds restarts model ("brute") X_batch L Min)
  else if method = "random" then
    some (full_acquisition_optimization opt num acq bounds restarts model ("random") X_batch L Min)
  else if method = "fast_brute" then
    some (fast_acquisition_optimization opt num acq bounds restarts model ("brute") X_batch L Min)
  else if method = "fast_random" then
    some (fast_acquisition_optimization opt num acq bounds restarts model ("random") X_batch L Min)
  else none

/-- The objective `df` of `estimate_L`: minus the norm of the posterior-mean
gradient (`dmdx`) at `x`; the `alpha` argument of the source's `df` is
accepted there and unused. -/
def dfNegGradNorm (num : Numerics) (model : Model) (x : Point) : ℚ :=
  -(num.sqrt (sumSqSelf (model.predGrad x)))

/-- The raw Lipschitz estimate of `estimate_L` before the floor policy:
seed at the best of 5 uniform samples, locally minimize `df`, negate the
found minimum. -/
def estimate_L_raw (opt : Optimizer) (num : Numerics) (model : Model) (bounds : Bounds) : ℚ :=
  let samples := opt.samplesUniform bounds 5
  let pred_samples := samples.map (dfNegGradNorm num model);
  -(opt.minimize (dfNegGradNorm num model) (samples.getD (argminIdx pred_samples) []) bounds).2

/-- Embeds `estimate_L(model, bounds, alpha)`: the raw estimate with the flat-model
policy `if L < 0.1: L = 100` applied; `alpha` is accepted and unused. -/
def estimate_L (opt : Optimizer) (num : Numerics) (model : Model) (bounds : Bounds)
    (alpha : ℚ) : ℚ :=
  if estimate_L_raw opt num model bounds < 1 / 10 then 100
  else estimate_L_raw opt num model bounds

/-- Embeds `estimate_Min(model, bounds, alpha)`: the minimum observed output;
`bounds` and `alpha` are accepted and unused. -/
def estimate_Min (model : Model) (bounds : Bounds) (alpha : ℚ) : ℚ :=
  listMin model.Y

/-- The `while k < n_inbatch` loop of `random_batch_optimization`, with fuel
`n_inbatch - k`: each iteration stacks one fresh uniform sample. -/
def randomLoop (opt : Optimizer) (bounds : Bounds) : ℕ → Batch → Batch
  | 0, xb => xb
  | fuel + 1, xb => randomLoop opt bounds fuel (xb ++ opt.samplesUniform bounds 1)

/-- Embeds `random_batch_optimization`: one acquisition optimum, then
`n_inbatch - 1` uniform random points. -/
def random_batch_optimization (opt : Optimizer) (num : Numerics) (acq : Point → ℚ)
    (bounds : Bounds) (restarts : ℕ) (method : String) (model : Model)
    (n_inbatch : ℕ) : Option Batch :=
  match optimize_acquisition opt num acq bounds restarts method model none 0 0 with
  | none => none
  | some x0 => some (randomLoop opt bounds (n_inbatch - 1) [x0])

/-- The `while k < n_inbatch` loop of `adaptive_batch_optimization`: each
iteration re-optimizes the acquisition penalized by the batch so far and
stacks the result. -/
def adaptiveLoop (opt : Optimizer) (num : Numerics) (acq : Point → ℚ) (bounds : Bounds)
    (restarts : ℕ) (method : String) (model : Model) (L Min : ℚ) :
    ℕ → Batch → Option Batch
  | 0, xb => some xb
  | fuel + 1, xb =>
    match optimize_acquisition opt num acq bounds restarts method model (some xb) L Min with
    | none => none
    | some x => adaptiveLoop opt num acq bounds restarts method model L Min fuel (xb ++ [x])

/-- Embeds `adaptive_batch_optimization`: first point unpenalized; when
`n_inbatch > 1`, `L` and `Min` are estimated once and shared by every later
slot (when `n_inbatch ≤ 1` they stay unbound in Python and unread, here an
unread `0`). -/
def adaptive_batch_optimization (opt : Optimizer) (num : Numerics) (acq : Point → ℚ)
    (bounds : Bounds) (restarts : ℕ) (method : String) (model : Model)
    (n_inbatch : ℕ) (alpha_L alpha_Min : ℚ) : Option Batch :=
  match optimize_acquisition opt num acq bounds restarts method model none 0 0 with
  | none => none
  | some x0 =>
    let L := if 1 < n_inbatch then estimate_L opt num model bounds alpha_L else 0
    let Min := if 1 < n_inbatch then estimate_Min model bounds alpha_Min else 0
    adaptiveLoop opt num acq bounds restarts method model L Min (n_inbatch - 1) [x0]

/-- The `while k < n_inbatch` loop of `hybrid_batch_optimization`.  The
surrogate-refit step — constructing `GPyOpt.methods.BayesianOptimization`
on the augmented data and reading its `suggested_sample` — is code of this
repository outside this source file; it is the `refit` parameter, modelled
from the spec as a fallible call whose `Except.error` is the
`np.linalg.linalg.LinAlgError` raised on a singular covariance.  On error
the source prints a stop notice and `break`s, returning the batch so far. -/
def hybridLoop (model : Model) (refit : List Point → List ℚ → Except Unit Point) :
    ℕ → List Point → List ℚ → Point → Batch → Batch
  | 0, _, _, _, xb => xb
  | fuel + 1, X, Y, x_new, xb =>
    let X' := X ++ [x_new]
    let Y' := Y ++ [model.predictMean x_new]
    match refit X' Y' with
    | Except.error _ => xb
    | Except.ok x' => hybridLoop model refit fuel X' Y' x' (xb ++ [x'])

/-- Embeds `hybrid_batch_optimization`: first point unpenalized, then sequential
surrogate refits on data augmented with predicted labels. -/
def hybrid_batch_optimization (opt : Optimizer) (num : Numerics) (acq : Point → ℚ)
    (bounds : Bounds) (restarts : ℕ) (method : String) (model : Model)
    (refit : List Point → List ℚ → Except Unit Point) (n_inbatch : ℕ) : Option Batch :=
  match optimize_acquisition opt num acq bounds restarts method model none 0 0 with
  | none => none
  | some x_new => some (hybridLoop model refit (n_inbatch - 1) model.X model.Y x_new [x_new])

/-- Embeds `compute_w(mu, Sigma)`: `Sigma12 = sqrtm(inv(Sigma))`,
`probabilities = norm.cdf(Sigma12 . mu)`, and
`w[i] = reduce(mul, np.delete(probabilities, i, 0), 1)`. -/
def compute_w (num : Numerics) (mu : List ℚ) (Sigma : List (List ℚ)) : List ℚ :=
  let Sigma12 := num.sqrtm (num.inv Sigma)
  let probabilities := (matVecMul Sigma12 mu).map num.cdf
  (List.range Sigma.length).map (fun i => listProd (probabilities.eraseIdx i))

/-- Embeds `compute_batch_weigths(x, model)` (source spelling). -/
def compute_batch_weigths (num : Numerics) (x : List Point) (model : Model) : List ℚ :=
  compute_w num (x.map model.predictMean) (model.kernK x)

/-- Embeds `weights[(batch_labels == k)[:,0], :] = vals`: overwrite, in order, the
weight entries whose label equals `k` with the entries of `vals`. -/
def maskAssign : List ℚ → List ℤ → ℤ → List ℚ → List ℚ
  | [], _, _, _ => []
  | w, [], _, _ => w
  | wh :: wt, lh :: lt, k, vals =>
    if lh = k then vals.headD wh :: maskAssign wt lt k vals.tail
    else wh :: maskAssign wt lt k vals

/-- One iteration of `sm_batch_optimization`'s `for k in np.unique(...)`
loop: fill in the weights of group `k`, then (inside the loop, as in the
source) run the weighted k-means.  `wk` is `WKmeans` from
`GPyOpt.util.general`, code of this repository outside this source file,
modelled from the spec as a `(points, weights, k) → centroids` primitive. -/
def smStep (num : Numerics) (wk : List Point → List ℚ → ℕ → Batch) (model : Model)
    (n_inbatch : ℕ) (labels : List ℤ) (acc : List ℚ × Option Batch) (k : ℤ) :
    List ℚ × Option Batch :=
  let x := (model.X.zip labels).filterMap (fun p => if p.2 = k then some p.1 else none)
  let w' := maskAssign acc.1 labels k (compute_batch_weigths num x model)
  (w', some (wk model.X w' n_inbatch))

/-- Embeds `sm_batch_optimization(model, n_inbatch, batch_labels)`.  The returned
flag records whether the guard `n < n_inbatch` fired and printed
`'Initial points should be larger than the batch size'`; as in the source,
nothing else happens on that path and execution falls through to the
weight computation and clustering.  `np.unique` is a deduplication of the
labels (its sorting only permutes the group processing order, which leaves
the final weights — and hence the returned last `WKmeans` result —
unchanged, the groups being disjoint).  With no label at all the Python
`X_batch` would stay unbound, which is `none`. -/
def sm_batch_optimization (num : Numerics) (wk : List Point → List ℚ → ℕ → Batch)
    (model : Model) (n_inbatch : ℕ) (batch_labels : List ℤ) : Bool × Option Batch :=
  (decide (model.X.length < n_inbatch),
    (batch_labels.dedup.foldl (smStep num wk model n_inbatch batch_labels)
      (List.replicate model.X.length 0, none)).2)

/-- Modelled from the spec: the variant of `fast_acquisition_optimization`
that the spec sentence describes, in which the batched restart scoring uses
the penalized acquisition rather than the raw acquisition; kept to compare
against the source's actual behaviour. -/
def fast_acquisition_optimization_penalizedSeed (opt : Optimizer) (num : Numerics)
    (acq : Point → ℚ) (bounds : Bounds) (restarts : ℕ) (model : Model)
    (method_type : String) (X_batch : Option Batch) (L Min : ℚ) : Point :=
  let samples := drawRestartSamples opt bounds restarts method_type
  let pred_samples :=
    samples.map (fun x => penalized_acquisition num x acq bounds model X_batch L Min)
  (opt.minimize (fun x => penalized_acquisition num x acq bounds model X_batch L Min)
    (samples.getD (argminIdx pred_samples) []) bounds).1

/-- Modelled from the spec: the sign-normalized raw acquisition of §4.5 —
the raw acquisition with the sign/offset normalization applied (the same
normalization that precedes the hammer products in the non-empty case),
negated back by the final sign flip. -/
def sign_normalized_acquisition (acq : Point → ℚ) (model : Model) (x : Point) : ℚ :=
  let sur_min := listMin (model.X.map (fun p => -acq p));
  -(-acq x - npSign sur_min * |sur_min|)

/-! ### Concrete instances, used to evaluate the embedding on explicit inputs

The identity square root and identity CDF satisfy every contract the
theorems below assume of those collaborators (monotonicity, positivity on
positive arguments), so they are legitimate instantiations. -/

/-- Identity numerics. -/
def cNum : Numerics := { sqrt := id, cdf := id, inv := id, sqrtm := id }

/-- An optimizer whose samplers return the fixed candidate set
`{(1), (2)}` and whose local minimizer returns its seed unchanged. -/
def cOpt : Optimizer :=
  { samplesUniform := fun _ _ => [[1], [2]]
    multigrid := fun _ _ => [[1], [2]]
    minimize := fun f x0 _ => (x0, f x0) }

/-- An optimizer honouring the sampler and minimizer contracts: samplers
return exactly `k` copies of the lower corner of the box, and the local
minimizer returns the lower corner of the box it is given. -/
def wOpt : Optimizer :=
  { samplesUniform := fun b k => List.replicate k (b.map Prod.fst)
    multigrid := fun b k => List.replicate k (b.map Prod.fst)
    minimize := fun f _ b => (b.map Prod.fst, f (b.map Prod.fst)) }

/-- A one-observation model on a one-dimensional domain. -/
def cModel : Model :=
  { X := [[0]], Y := [0]
    predictMean := fun _ => 0
    predictVar := fun _ => 1
    predGrad := fun _ => [0]
    kernK := fun pts => pts.map (fun _ => pts.map (fun _ => (1 : ℚ))) }

/-- The same model reporting zero posterior variance everywhere. -/
def cModelVarZero : Model := { cModel with predictVar := fun _ => 0 }

/-- A one-dimensional box. -/
def cBounds : Bounds := [((0 : ℚ), (10 : ℚ))]

/-- A concrete acquisition: the first coordinate. -/
def cAcq : Point → ℚ := fun x => x.headD 0

/-- A weighted-k-means instance returning `k` copies of the first point. -/
def cWkRep : List Point → List ℚ → ℕ → Batch :=
  fun X _ k => List.replicate k (X.headD [])

/-- A weighted-k-means instance returning `k` empty points. -/
def cWkNil : List Point → List ℚ → ℕ → Batch :=
  fun _ _ k => List.replicate k []

/-- A weighted-k-means instance returning the first `k` observed points
(so its centroids stay inside any box containing the observations). -/
def cWkTake : List Point → List ℚ → ℕ → Batch := fun X _ k => X.take k

/-- A refit constructor that always succeeds with the point `(0)`. -/
def cRefitOk : List Point → List ℚ → Except Unit Point := fun _ _ => Except.ok [0]

/-- A refit constructor that always raises the singular-covariance error. -/
def cRefitFail : List Point → List ℚ → Except Unit Point := fun _ _ => Except.error ()

/-! ### Helper lemmas -/

/-- The index `np.argmin` returns lies inside its list. -/
theorem argminIdx_lt_length : ∀ l : List ℚ, l ≠ [] → argminIdx l < l.length
  | [a], _ => by simp [argminIdx]
  | a :: b :: t, _ => by
    simp only [argminIdx]
    split
    · simp
    · have h := argminIdx_lt_length (b :: t) (by simp)
      simp only [List.length_cons] at h ⊢
      omega

/-- Shifting every entry by a constant shifts the minimum. -/
theorem listMin_map_add (c : ℚ) : ∀ l : List ℚ, l ≠ [] →
    listMin (l.map (fun q => q + c)) = listMin l + c
  | [a], _ => by simp [listMin]
  | a :: b :: t, _ => by
    have ih := listMin_map_add c (b :: t) (by simp)
    simp only [List.map_cons] at ih ⊢
    simp only [listMin]
    rw [ih, min_add_add_right]

/-- Shifting every entry by a constant does not move the first arg-min. -/
theorem argminIdx_map_add (c : ℚ) : ∀ l : List ℚ,
    argminIdx (l.map (fun q => q + c)) = argminIdx l
  | [] => rfl
  | [a] => rfl
  | a :: b :: t => by
    have hmin := listMin_map_add c (b :: t) (by simp)
    have ih := argminIdx_map_add c (b :: t)
    simp only [List.map_cons] at hmin ih ⊢
    simp only [argminIdx]
    rw [hmin, ih]
    by_cases h : a ≤ listMin (b :: t)
    · rw [if_pos h, if_pos (by linarith)]
    · rw [if_neg h, if_neg (fun hc => h (by linarith))]

/-- With no batch so far, the penalized acquisition is the raw acquisition
shifted by the constant sign-normalization offset. -/
theorem penalized_acquisition_none (num : Numerics) (x : Point) (acq : Point → ℚ)
    (bounds : Bounds) (model : Model) (L Min : ℚ) :
    penalized_acquisition num x acq bounds model none L Min =
      acq x + npSign (listMin (model.X.map (fun p => -acq p))) *
        |listMin (model.X.map (fun p => -acq p))| := by
  simp only [penalized_acquisition]
  ring

/-! ### Claim theorems -/

/-- Claim C1, counterexample: in the fast single-point optimization family
the candidate restarts are NOT scored by the penalized acquisition.  On a
concrete non-empty batch-so-far, the source (which scores the restarts with
the raw acquisition) refines a different seed — and returns a different
point — than the spec-described variant that scores the restarts with the
penalized acquisition. -/
theorem fast_seed_ignores_penalization_counterexample :
    fast_acquisition_optimization cOpt cNum cAcq cBounds 2 cModel ("random")
        (some [[2]]) 1 0 ≠
      fast_acquisition_optimization_penalizedSeed cOpt cNum cAcq cBounds 2 cModel ("random")
        (some [[2]]) 1 0 := by
  norm_num [fast_acquisition_optimization, fast_acquisition_optimization_penalizedSeed,
    drawRestartSamples, argminIdx, listMin, penalized_acquisition, hammer_function,
    hammer_s_scaled, hammer_clamped_var, sumSq, npSign, cOpt, cNum, cAcq, cBounds, cModel]

/-- Claim C1, amended: the fast family scores the candidate restarts with
the RAW acquisition in one batched call and passes the arg-min as the
single seed of one local refinement of the penalized acquisition; only
with an empty batch-so-far does this seed selection agree with scoring by
the penalized acquisition (which is then the raw acquisition plus a
constant offset, so the arg-min is unchanged). -/
theorem fast_seed_raw_scored_agrees_when_batch_empty (opt : Optimizer) (num : Numerics)
    (acq : Point → ℚ) (bounds : Bounds) (restarts : ℕ) (model : Model)
    (method_type : String) (L Min : ℚ) :
    fast_acquisition_optimization opt num acq bounds restarts model method_type
        none L Min =
      fast_acquisition_optimization_penalizedSeed opt num acq bounds restarts model
        method_type none L Min := by
  simp only [fast_acquisition_optimization, fast_acquisition_optimization_penalizedSeed]
  have h1 : (drawRestartSamples opt bounds restarts method_type).map
      (fun x => penalized_acquisition num x acq bounds model none L Min) =
      ((drawRestartSamples opt bounds restarts method_type).map acq).map
        (fun q => q + npSign (listMin (model.X.map (fun p => -acq p))) *
          |listMin (model.X.map (fun p => -acq p))|) := by
    rw [List.map_map]
    exact List.map_congr_left (fun a _ => by rw [penalized_acquisition_none]; rfl)
  rw [h1, argminIdx_map_add]

/-- Claim C2 (code bug): requesting a weighted-clustering batch larger than
the number of observed points does NOT abort.  On a model with one observed
point and `n_inbatch = 2`, the source prints its usage message (the `true`
flag) and then falls through to compute the weights, run the clustering and
return its result — it does not abort before clustering as the claim
states. -/
theorem sm_batch_proceeds_below_precondition :
    sm_batch_optimization cNum cWkRep cModel 2 [0] = (true, some [[0], [0]]) := by
  norm_num [sm_batch_optimization, smStep, maskAssign, compute_batch_weigths, compute_w,
    matVecMul, dotProd, listProd, cNum, cModel, cWkRep, List.replicate]

/-- Claim C5: with an empty batch-so-far (Python `X_batch=None`, and equally
an empty batch list), the penalized acquisition coincides with the
sign-normalized raw acquisition — the same sign/offset normalization used
in the non-empty case, with no hammer factor applied. -/
theorem penalized_acquisition_empty_batch_identity (num : Numerics) (x : Point)
    (acq : Point → ℚ) (bounds : Bounds) (model : Model) (L Min : ℚ) :
    penalized_acquisition num x acq bounds model none L Min =
        sign_normalized_acquisition acq model x ∧
      penalized_acquisition num x acq bounds model (some []) L Min =
        sign_normalized_acquisition acq model x :=
  ⟨rfl, rfl⟩

/-- Claim C6: for fixed `x0`, `L > 0` and `Min`, the hammer exclusion value
`Φ((‖x − x0‖ − r)/s_scaled)` is non-decreasing in the distance `‖x − x0‖`
(here `num.sqrt (sumSq · x0)`), for every CDF `Φ` that is monotone and
every square root positive on positive arguments. -/
theorem hammer_function_monotone_in_distance (num : Numerics) (x y x0 : Point)
    (L Min : ℚ) (model : Model)
    (hcdf : Monotone num.cdf)
    (hsqrt : ∀ q : ℚ, 0 < q → 0 < num.sqrt q)
    (hL : 0 < L)
    (hd : num.sqrt (sumSq x x0) ≤ num.sqrt (sumSq y x0)) :
    hammer_function num x x0 L Min model ≤ hammer_function num y x0 L Min model := by
  have hvar : 0 < hammer_clamped_var model x0 := by
    unfold hammer_clamped_var
    split
    · positivity
    · have h10 : (0 : ℚ) < 1 / 10 ^ 16 := by positivity
      linarith [not_lt.mp (by assumption)]
  have hs : 0 < hammer_s_scaled num model x0 L := div_pos (hsqrt _ hvar) hL
  unfold hammer_function
  apply hcdf
  gcongr

/-- Witness for claim C6: at the concrete model, identity CDF and square
root, distance `0` versus distance `3` from the chosen point `(0)`. -/
theorem hammer_function_monotone_in_distance_witness :
    hammer_function cNum [0] [0] 1 0 cModel ≤ hammer_function cNum [3] [0] 1 0 cModel :=
  hammer_function_monotone_in_distance cNum [0] [3] [0] 1 0 cModel
    (fun _ _ h => h) (fun _ h => h) (by norm_num) (by norm_num [cNum, sumSq])

/-- Claim C7: `estimate_L` never returns a value below `0.1`, and whenever
the raw estimate (the negated minimized negative gradient norm) is below
`0.1` the returned value is exactly `100`. -/
theorem estimate_L_floor (opt : Optimizer) (num : Numerics) (model : Model)
    (bounds : Bounds) (alpha : ℚ) :
    1 / 10 ≤ estimate_L opt num model bounds alpha ∧
      (estimate_L_raw opt num model bounds < 1 / 10 →
        estimate_L opt num model bounds alpha = 100) := by
  constructor
  · unfold estimate_L
    split
    · norm_num
    · exact not_lt.mp (by assumption)
  · intro h
    unfold estimate_L
    rw [if_pos h]

/-- Witness for claim C7: a model whose posterior gradient is zero
everywhere makes the raw estimate `0 < 0.1`, so `estimate_L` returns
exactly `100`. -/
theorem estimate_L_floor_witness :
    1 / 10 ≤ estimate_L cOpt cNum cModel cBounds (1 / 40) ∧
      estimate_L cOpt cNum cModel cBounds (1 / 40) = 100 :=
  ⟨(estimate_L_floor cOpt cNum cModel cBounds (1 / 40)).1,
   (estimate_L_floor cOpt cNum cModel cBounds (1 / 40)).2
     (by norm_num [estimate_L_raw, dfNegGradNorm, sumSqSelf, argminIdx, listMin,
       cOpt, cNum, cModel, cBounds])⟩

/-- Claim C9: the posterior variance queried at the batch point is floored
at `1e-16` before the square root, so for every square root positive on
positive arguments and every `L > 0` the divisor `s_scaled = s/L` is
strictly positive — even when the model reports zero or underflowed
variance. -/
theorem hammer_variance_floor (num : Numerics) (model : Model) (x0 : Point) (L : ℚ)
    (hsqrt : ∀ q : ℚ, 0 < q → 0 < num.sqrt q) (hL : 0 < L) :
    1 / 10 ^ 16 ≤ hammer_clamped_var model x0 ∧
      0 < hammer_s_scaled num model x0 L := by
  have h1 : 1 / 10 ^ 16 ≤ hammer_clamped_var model x0 := by
    unfold hammer_clamped_var
    split
    · exact le_refl _
    · exact not_lt.mp (by assumption)
  exact ⟨h1, div_pos (hsqrt _ (lt_of_lt_of_le (by positivity) h1)) hL⟩

/-- Witness for claim C9: the model reporting zero variance everywhere, the
identity square root and `L = 1`. -/
theorem hammer_variance_floor_witness :
    1 / 10 ^ 16 ≤ hammer_clamped_var cModelVarZero [0] ∧
      0 < hammer_s_scaled cNum cModelVarZero [0] 1 :=
  hammer_variance_floor cNum cModelVarZero [0] 1 (fun _ h => h) (by norm_num)

/-- Claim C10: the single-point optimizer's method selector succeeds for
exactly the four strings `'brute'`, `'random'`, `'fast_brute'` and
`'fast_random'`; for every other method string its result variable is
never assigned (`none`) rather than falling back to a default method. -/
theorem optimize_acquisition_method_dispatch (opt : Optimizer) (num : Numerics)
    (acq : Point → ℚ) (bounds : Bounds) (restarts : ℕ) (method : String)
    (model : Model) (X_batch : Option Batch) (L Min : ℚ) :
    (optimize_acquisition opt num acq bounds restarts method model X_batch L Min).isSome ↔
      method = "brute" ∨ method = "random" ∨ method = "fast_brute" ∨
        method = "fast_random" := by
  unfold optimize_acquisition
  split_ifs with h1 h2 h3 h4 <;> simp_all

/-- Claim C8: if constructing the refit surrogate raises the
singular-covariance error at the first refit attempt of the
surrogate-refit batch loop, the loop terminates early and the operation
returns the partial batch collected so far — the first point — without
propagating the error. -/
theorem hybrid_refit_failure_early_stop (opt : Optimizer) (num : Numerics)
    (acq : Point → ℚ) (bounds : Bounds) (restarts : ℕ) (method : String)
    (model : Model) (refit : List Point → List ℚ → Except Unit Point)
    (n_inbatch : ℕ) (x0 : Point)
    (hopt : optimize_acquisition opt num acq bounds restarts method model none 0 0 =
      some x0)
    (hn : 2 ≤ n_inbatch)
    (hfail : refit (model.X ++ [x0]) (model.Y ++ [model.predictMean x0]) =
      Except.error ()) :
    hybrid_batch_optimization opt num acq bounds restarts method model refit n_inbatch =
      some [x0] := by
  obtain ⟨m, hm⟩ : ∃ m, n_inbatch - 1 = m + 1 := ⟨n_inbatch - 2, by omega⟩
  simp only [hybrid_batch_optimization, hopt, hm, hybridLoop, hfail]

/-- Witness for claim C8: the always-failing refit constructor stops a
requested batch of 2 after its first point. -/
theorem hybrid_refit_failure_early_stop_witness :
    hybrid_batch_optimization wOpt cNum cAcq cBounds 1 ("fast_random") cModel cRefitFail 2 =
      some [[0]] :=
  hybrid_refit_failure_early_stop wOpt cNum cAcq cBounds 1 ("fast_random") cModel
    cRefitFail 2 [0] rfl (by decide) rfl

/-- A valid method string makes `optimize_acquisition` return a point. -/
theorem optimize_acquisition_isSome_of_valid_method (opt : Optimizer) (num : Numerics)
    (acq : Point → ℚ) (bounds : Bounds) (restarts : ℕ) (method : String) (model : Model)
    (X_batch : Option Batch) (L Min : ℚ)
    (hmethod : method = "brute" ∨ method = "random" ∨ method = "fast_brute" ∨
      method = "fast_random") :
    ∃ p, optimize_acquisition opt num acq bounds restarts method model X_batch L Min =
      some p := by
  rcases hmethod with h | h | h | h <;> subst h <;> exact ⟨_, rfl⟩

/-- Each iteration of the random-fill loop adds exactly one sample. -/
theorem randomLoop_length (opt : Optimizer) (bounds : Bounds)
    (h1 : (opt.samplesUniform bounds 1).length = 1) :
    ∀ (fuel : ℕ) (xb : Batch), (randomLoop opt bounds fuel xb).length = xb.length + fuel
  | 0, xb => by simp [randomLoop]
  | fuel + 1, xb => by
    rw [randomLoop, randomLoop_length opt bounds h1 fuel]
    simp [h1]
    omega

/-- With a valid method, each iteration of the penalization loop adds
exactly one point and never fails. -/
theorem adaptiveLoop_length (opt : Optimizer) (num : Numerics) (acq : Point → ℚ)
    (bounds : Bounds) (restarts : ℕ) (method : String) (model : Model) (L Min : ℚ)
    (hmethod : method = "brute" ∨ method = "random" ∨ method = "fast_brute" ∨
      method = "fast_random") :
    ∀ (fuel : ℕ) (xb : Batch),
      ∃ l, adaptiveLoop opt num acq bounds restarts method model L Min fuel xb =
        some l ∧ l.length = xb.length + fuel
  | 0, xb => ⟨xb, rfl, by simp⟩
  | fuel + 1, xb => by
    obtain ⟨p, hp⟩ := optimize_acquisition_isSome_of_valid_method opt num acq bounds
      restarts method model (some xb) L Min hmethod
    obtain ⟨l, hl, hlen⟩ := adaptiveLoop_length opt num acq bounds restarts method model
      L Min hmethod fuel (xb ++ [p])
    refine ⟨l, ?_, ?_⟩
    · simp only [adaptiveLoop, hp]
      exact hl
    · simp only [List.length_append, List.length_cons, List.length_nil] at hlen
      omega

/-- With an always-successful refit, each iteration of the surrogate-refit
loop adds exactly one point. -/
theorem hybridLoop_length (model : Model)
    (refit : List Point → List ℚ → Except Unit Point)
    (hrefit : ∀ X Y, ∃ p, refit X Y = Except.ok p) :
    ∀ (fuel : ℕ) (X : List Point) (Y : List ℚ) (x_new : Point) (xb : Batch),
      (hybridLoop model refit fuel X Y x_new xb).length = xb.length + fuel
  | 0, X, Y, x, xb => by simp [hybridLoop]
  | fuel + 1, X, Y, x, xb => by
    obtain ⟨p, hp⟩ := hrefit (X ++ [x]) (Y ++ [model.predictMean x])
    have ih := hybridLoop_length model refit hrefit fuel (X ++ [x])
      (Y ++ [model.predictMean x]) p (xb ++ [p])
    simp only [hybridLoop, hp]
    simp only [List.length_append, List.length_cons, List.length_nil] at ih
    omega

/-- The second component of the weighted-clustering fold is either
untouched or the result of a `WKmeans` call on the full observed set. -/
theorem smFoldl_snd (num : Numerics) (wk : List Point → List ℚ → ℕ → Batch)
    (model : Model) (n_inbatch : ℕ) (labels : List ℤ) :
    ∀ (ls : List ℤ) (acc : List ℚ × Option Batch),
      (ls.foldl (smStep num wk model n_inbatch labels) acc).2 = acc.2 ∨
        ∃ w, (ls.foldl (smStep num wk model n_inbatch labels) acc).2 =
          some (wk model.X w n_inbatch)
  | [], _ => Or.inl rfl
  | a :: t, acc => by
    rw [List.foldl_cons]
    rcases smFoldl_snd num wk model n_inbatch labels t
        (smStep num wk model n_inbatch labels acc a) with h | h
    · exact Or.inr ⟨_, h.trans rfl⟩
    · exact Or.inr h

/-- Over a non-empty label list, the weighted-clustering fold ends in a
`WKmeans` result on the full observed set. -/
theorem smFoldl_snd_some (num : Numerics) (wk : List Point → List ℚ → ℕ → Batch)
    (model : Model) (n_inbatch : ℕ) (labels : List ℤ) (ls : List ℤ) (hne : ls ≠ [])
    (acc : List ℚ × Option Batch) :
    ∃ w, (ls.foldl (smStep num wk model n_inbatch labels) acc).2 =
      some (wk model.X w n_inbatch) := by
  cases ls with
  | nil => exact absurd rfl hne
  | cons a t =>
    rw [List.foldl_cons]
    rcases smFoldl_snd num wk model n_inbatch labels t
        (smStep num wk model n_inbatch labels acc a) with h | h
    · exact ⟨_, h.trans rfl⟩
    · exact h

/-- Claim C3: under valid inputs (valid method string, `batch_size ≥ 1`,
sampler honouring its count contract, refit construction succeeding,
`WKmeans` returning the requested number of centroids, at least one label
group), each of the four batch strategies returns an ordered list of
exactly `n_inbatch` points. -/
theorem batch_size_contract (opt : Optimizer) (num : Numerics) (acq : Point → ℚ)
    (bounds : Bounds) (restarts : ℕ) (method : String) (model : Model)
    (refit : List Point → List ℚ → Except Unit Point)
    (wk : List Point → List ℚ → ℕ → Batch)
    (n_inbatch : ℕ) (labels : List ℤ) (alpha_L alpha_Min : ℚ)
    (hmethod : method = "brute" ∨ method = "random" ∨ method = "fast_brute" ∨
      method = "fast_random")
    (hn : 1 ≤ n_inbatch)
    (hsampler : ∀ b k, (opt.samplesUniform b k).length = k)
    (hrefit : ∀ X Y, ∃ p, refit X Y = Except.ok p)
    (hwk : ∀ X w k, (wk X w k).length = k)
    (hlabels : labels ≠ []) :
    (∃ l, random_batch_optimization opt num acq bounds restarts method model n_inbatch =
        some l ∧ l.length = n_inbatch) ∧
      (∃ l, adaptive_batch_optimization opt num acq bounds restarts method model
          n_inbatch alpha_L alpha_Min = some l ∧ l.length = n_inbatch) ∧
      (∃ l, hybrid_batch_optimization opt num acq bounds restarts method model refit
          n_inbatch = some l ∧ l.length = n_inbatch) ∧
      (∃ l, (sm_batch_optimization num wk model n_inbatch labels).2 = some l ∧
        l.length = n_inbatch) := by
  obtain ⟨p, hp⟩ := optimize_acquisition_isSome_of_valid_method opt num acq bounds
    restarts method model none 0 0 hmethod
  refine ⟨⟨randomLoop opt bounds (n_inbatch - 1) [p], ?_, ?_⟩, ?_, ?_, ?_⟩
  · simp only [random_batch_optimization, hp]
  · rw [randomLoop_length opt bounds (hsampler bounds 1) (n_inbatch - 1) [p]]
    simp
    omega
  · obtain ⟨l, hl, hlen⟩ := adaptiveLoop_length opt num acq bounds restarts method model
      (if 1 < n_inbatch then estimate_L opt num model bounds alpha_L else 0)
      (if 1 < n_inbatch then estimate_Min model bounds alpha_Min else 0)
      hmethod (n_inbatch - 1) [p]
    refine ⟨l, ?_, ?_⟩
    · simp only [adaptive_batch_optimization, hp]
      exact hl
    · simp only [List.length_cons, List.length_nil] at hlen
      omega
  · refine ⟨hybridLoop model refit (n_inbatch - 1) model.X model.Y p [p], ?_, ?_⟩
    · simp only [hybrid_batch_optimization, hp]
    · rw [hybridLoop_length model refit hrefit (n_inbatch - 1) model.X model.Y p [p]]
      simp
      omega
  · obtain ⟨w, hw⟩ := smFoldl_snd_some num wk model n_inbatch labels labels.dedup
      (by simpa [List.dedup_eq_nil] using hlabels) (List.replicate model.X.length 0, none)
    exact ⟨wk model.X w n_inbatch, hw, hwk _ _ _⟩

/-- Witness for claim C3: all four strategies at the concrete
contract-honouring instances, batch size 2. -/
theorem batch_size_contract_witness :
    (∃ l, random_batch_optimization wOpt cNum cAcq cBounds 1 ("fast_random") cModel 2 =
        some l ∧ l.length = 2) ∧
      (∃ l, adaptive_batch_optimization wOpt cNum cAcq cBounds 1 ("fast_random") cModel
          2 0 0 = some l ∧ l.length = 2) ∧
      (∃ l, hybrid_batch_optimization wOpt cNum cAcq cBounds 1 ("fast_random") cModel
          cRefitOk 2 = some l ∧ l.length = 2) ∧
      (∃ l, (sm_batch_optimization cNum cWkNil cModel 2 [0]).2 = some l ∧
        l.length = 2) :=
  batch_size_contract wOpt cNum cAcq cBounds 1 ("fast_random") cModel cRefitOk cWkNil
    2 [0] 0 0 (Or.inr (Or.inr (Or.inr rfl))) (by decide)
    (fun b k => List.length_replicate k _) (fun X Y => ⟨[0], rfl⟩)
    (fun X w k => List.length_replicate k _) (by decide)

/-- An element read with a default from a position inside the list is a
member of the list. -/
theorem getD_mem_of_lt {α : Type} (l : List α) (d : α) (i : ℕ) (h : i < l.length) :
    l.getD i d ∈ l := by
  rw [List.getD_eq_getElem l d h]
  exact List.getElem_mem h

/-- The fast optimizer's result is the local minimizer's output on the
supplied bounds, so it lies in them whenever the minimizer honours them. -/
theorem fast_in_bounds (opt : Optimizer) (num : Numerics) (acq : Point → ℚ)
    (bounds : Bounds) (restarts : ℕ) (model : Model) (method_type : String)
    (X_batch : Option Batch) (L Min : ℚ)
    (hmin : ∀ f x0, inBounds bounds (opt.minimize f x0 bounds).1) :
    inBounds bounds (fast_acquisition_optimization opt num acq bounds restarts model
      method_type X_batch L Min) :=
  hmin _ _

/-- The full optimizer's result is one of the local minimizer's outputs on
the supplied bounds (the restart set being non-empty). -/
theorem full_in_bounds (opt : Optimizer) (num : Numerics) (acq : Point → ℚ)
    (bounds : Bounds) (restarts : ℕ) (model : Model) (method_type : String)
    (X_batch : Option Batch) (L Min : ℚ)
    (hmin : ∀ f x0, inBounds bounds (opt.minimize f x0 bounds).1)
    (hr : 1 ≤ restarts)
    (hslen : (opt.samplesUniform bounds restarts).length = restarts)
    (hglen : (opt.multigrid bounds restarts).length = restarts) :
    inBounds bounds (full_acquisition_optimization opt num acq bounds restarts model
      method_type X_batch L Min) := by
  have hlen : (drawRestartSamples opt bounds restarts method_type).length = restarts := by
    unfold drawRestartSamples
    split <;> assumption
  simp only [full_acquisition_optimization]
  set results := (drawRestartSamples opt bounds restarts method_type).map
    (fun s => opt.minimize
      (fun x => penalized_acquisition num x acq bounds model X_batch L Min) s bounds)
    with hres
  have hrlen : results.length = restarts := by rw [hres, List.length_map, hlen]
  have hidx : argminIdx (results.map Prod.snd) < results.length := by
    have hne : results.map Prod.snd ≠ [] := by
      intro hcon
      have hh := congrArg List.length hcon
      simp only [List.length_map, hrlen, List.length_nil] at hh
      omega
    have h := argminIdx_lt_length (results.map Prod.snd) hne
    simpa using h
  obtain ⟨s, hs, heq⟩ := List.mem_map.mp
    (hres ▸ getD_mem_of_lt results ([], 0) (argminIdx (results.map Prod.snd)) hidx)
  rw [← heq]
  exact hmin _ _

/-- Any point produced by `optimize_acquisition` lies in the bounds, the
local minimizer honouring them and the restart set being non-empty. -/
theorem optimize_in_bounds (opt : Optimizer) (num : Numerics) (acq : Point → ℚ)
    (bounds : Bounds) (restarts : ℕ) (method : String) (model : Model)
    (X_batch : Option Batch) (L Min : ℚ) (p : Point)
    (hmin : ∀ f x0, inBounds bounds (opt.minimize f x0 bounds).1)
    (hr : 1 ≤ restarts)
    (hslen : (opt.samplesUniform bounds restarts).length = restarts)
    (hglen : (opt.multigrid bounds restarts).length = restarts)
    (hp : optimize_acquisition opt num acq bounds restarts method model X_batch L Min =
      some p) :
    inBounds bounds p := by
  unfold optimize_acquisition at hp
  split_ifs at hp
  all_goals first
    | exact Option.noConfusion hp
    | (injection hp with h
       subst h
       first
         | exact full_in_bounds _ _ _ _ _ _ _ _ _ _ hmin hr hslen hglen
         | exact fast_in_bounds _ _ _ _ _ _ _ _ _ _ hmin)

/-- The random-fill loop only appends sampler output. -/
theorem randomLoop_bounds (opt : Optimizer) (bounds : Bounds)
    (hsampB : ∀ k x, x ∈ opt.samplesUniform bounds k → inBounds bounds x) :
    ∀ (fuel : ℕ) (xb : Batch), (∀ x ∈ xb, inBounds bounds x) →
      ∀ x ∈ randomLoop opt bounds fuel xb, inBounds bounds x
  | 0, xb, hxb => by simpa [randomLoop] using hxb
  | fuel + 1, xb, hxb => by
    apply randomLoop_bounds opt bounds hsampB fuel
    intro x hx
    rcases List.mem_append.mp hx with h | h
    · exact hxb x h
    · exact hsampB 1 x h

/-- The penalization loop only appends `optimize_acquisition` output. -/
theorem adaptiveLoop_bounds (opt : Optimizer) (num : Numerics) (acq : Point → ℚ)
    (bounds : Bounds) (restarts : ℕ) (method : String) (model : Model) (L Min : ℚ)
    (hmin : ∀ f x0, inBounds bounds (opt.minimize f x0 bounds).1)
    (hr : 1 ≤ restarts)
    (hslen : (opt.samplesUniform bounds restarts).length = restarts)
    (hglen : (opt.multigrid bounds restarts).length = restarts) :
    ∀ (fuel : ℕ) (xb l : Batch), (∀ x ∈ xb, inBounds bounds x) →
      adaptiveLoop opt num acq bounds restarts method model L Min fuel xb = some l →
      ∀ x ∈ l, inBounds bounds x
  | 0, xb, l, hxb, hl => by
    obtain rfl : xb = l := Option.some.inj hl
    exact hxb
  | fuel + 1, xb, l, hxb, hl => by
    cases hq : optimize_acquisition opt num acq bounds restarts method model (some xb)
        L Min with
    | none =>
      simp only [adaptiveLoop, hq] at hl
      exact Option.noConfusion hl
    | some p =>
      simp only [adaptiveLoop, hq] at hl
      refine adaptiveLoop_bounds opt num acq bounds restarts method model L Min hmin hr
        hslen hglen fuel (xb ++ [p]) l ?_ hl
      intro x hx
      rcases List.mem_append.mp hx with h | h
      · exact hxb x h
      · rw [List.mem_singleton.mp h]
        exact optimize_in_bounds opt num acq bounds restarts method model (some xb)
          L Min p hmin hr hslen hglen hq

/-- The surrogate-refit loop only appends successful refit suggestions. -/
theorem hybridLoop_bounds (model : Model)
    (refit : List Point → List ℚ → Except Unit Point) (bounds : Bounds)
    (hrefitB : ∀ X Y p, refit X Y = Except.ok p → inBounds bounds p) :
    ∀ (fuel : ℕ) (X : List Point) (Y : List ℚ) (x_new : Point) (xb : Batch),
      (∀ x ∈ xb, inBounds bounds x) →
      ∀ x ∈ hybridLoop model refit fuel X Y x_new xb, inBounds bounds x
  | 0, X, Y, xn, xb, hxb => by simpa [hybridLoop] using hxb
  | fuel + 1, X, Y, xn, xb, hxb => by
    cases hq : refit (X ++ [xn]) (Y ++ [model.predictMean xn]) with
    | error e =>
      simp only [hybridLoop, hq]
      exact hxb
    | ok p =>
      simp only [hybridLoop, hq]
      apply hybridLoop_bounds model refit bounds hrefitB fuel (X ++ [xn])
        (Y ++ [model.predictMean xn]) p (xb ++ [p])
      intro x hx
      rcases List.mem_append.mp hx with h | h
      · exact hxb x h
      · rw [List.mem_singleton.mp h]
        exact hrefitB _ _ p hq

/-- Claim C4: for every batch strategy, every point of the returned batch
lies within the supplied per-dimension box bounds, assuming the external
sampler, local minimizer, refit constructor and clustering primitive
respect the bounds passed to them (the clustering because its centroids
stay within any box containing the observed points). -/
theorem bounds_containment (opt : Optimizer) (num : Numerics) (acq : Point → ℚ)
    (bounds : Bounds) (restarts : ℕ) (method : String) (model : Model)
    (refit : List Point → List ℚ → Except Unit Point)
    (wk : List Point → List ℚ → ℕ → Batch)
    (n_inbatch : ℕ) (labels : List ℤ) (alpha_L alpha_Min : ℚ)
    (hmin : ∀ f x0, inBounds bounds (opt.minimize f x0 bounds).1)
    (hr : 1 ≤ restarts)
    (hslen : (opt.samplesUniform bounds restarts).length = restarts)
    (hglen : (opt.multigrid bounds restarts).length = restarts)
    (hsampB : ∀ k x, x ∈ opt.samplesUniform bounds k → inBounds bounds x)
    (hrefitB : ∀ X Y p, refit X Y = Except.ok p → inBounds bounds p)
    (hwkB : ∀ Xs w k, (∀ x ∈ Xs, inBounds bounds x) →
      ∀ c ∈ wk Xs w k, inBounds bounds c)
    (hX : ∀ x ∈ model.X, inBounds bounds x) :
    (∀ l, random_batch_optimization opt num acq bounds restarts method model n_inbatch =
        some l → ∀ x ∈ l, inBounds bounds x) ∧
      (∀ l, adaptive_batch_optimization opt num acq bounds restarts method model
          n_inbatch alpha_L alpha_Min = some l → ∀ x ∈ l, inBounds bounds x) ∧
      (∀ l, hybrid_batch_optimization opt num acq bounds restarts method model refit
          n_inbatch = some l → ∀ x ∈ l, inBounds bounds x) ∧
      (∀ l, (sm_batch_optimization num wk model n_inbatch labels).2 = some l →
        ∀ x ∈ l, inBounds bounds x) := by
  refine ⟨?_, ?_, ?_, ?_⟩
  · intro l hl
    cases hq : optimize_acquisition opt num acq bounds restarts method model none 0 0 with
    | none =>
      simp only [random_batch_optimization, hq] at hl
      exact Option.noConfusion hl
    | some x0 =>
      simp only [random_batch_optimization, hq] at hl
      obtain rfl := Option.some.inj hl
      apply randomLoop_bounds opt bounds hsampB (n_inbatch - 1) [x0]
      intro x hx
      rw [List.mem_singleton.mp hx]
      exact optimize_in_bounds opt num acq bounds restarts method model none 0 0 x0
        hmin hr hslen hglen hq
  · intro l hl
    cases hq : optimize_acquisition opt num acq bounds restarts method model none 0 0 with
    | none =>
      simp only [adaptive_batch_optimization, hq] at hl
      exact Option.noConfusion hl
    | some x0 =>
      simp only [adaptive_batch_optimization, hq] at hl
      refine adaptiveLoop_bounds opt num acq bounds restarts method model _ _ hmin hr
        hslen hglen (n_inbatch - 1) [x0] l ?_ hl
      intro x hx
      rw [List.mem_singleton.mp hx]
      exact optimize_in_bounds opt num acq bounds restarts method model none 0 0 x0
        hmin hr hslen hglen hq
  · intro l hl
    cases hq : optimize_acquisition opt num acq bounds restarts method model none 0 0 with
    | none =>
      simp only [hybrid_batch_optimization, hq] at hl
      exact Option.noConfusion hl
    | some x0 =>
      simp only [hybrid_batch_optimization, hq] at hl
      obtain rfl := Option.some.inj hl
      apply hybridLoop_bounds model refit bounds hrefitB (n_inbatch - 1) model.X model.Y
        x0 [x0]
      intro x hx
      rw [List.mem_singleton.mp hx]
      exact optimize_in_bounds opt num acq bounds restarts method model none 0 0 x0
        hmin hr hslen hglen hq
  · intro l hl
    simp only [sm_batch_optimization] at hl
    rcases smFoldl_snd num wk model n_inbatch labels labels.dedup
        (List.replicate model.X.length 0, none) with h | ⟨w, hw⟩
    · rw [h] at hl
      exact Option.noConfusion hl
    · rw [hw] at hl
      obtain rfl := Option.some.inj hl
      exact hwkB model.X w n_inbatch hX

/-- Witness for claim C4: all four strategies at the concrete
contract-honouring instances on the box `[0, 10]`. -/
theorem bounds_containment_witness :
    (∀ l, random_batch_optimization wOpt cNum cAcq cBounds 1 ("fast_random") cModel 2 =
        some l → ∀ x ∈ l, inBounds cBounds x) ∧
      (∀ l, adaptive_batch_optimization wOpt cNum cAcq cBounds 1 ("fast_random") cModel
          2 0 0 = some l → ∀ x ∈ l, inBounds cBounds x) ∧
      (∀ l, hybrid_batch_optimization wOpt cNum cAcq cBounds 1 ("fast_random") cModel
          cRefitOk 2 = some l → ∀ x ∈ l, inBounds cBounds x) ∧
      (∀ l, (sm_batch_optimization cNum cWkTake cModel 2 [0]).2 = some l →
        ∀ x ∈ l, inBounds cBounds x) :=
  bounds_containment wOpt cNum cAcq cBounds 1 ("fast_random") cModel cRefitOk cWkTake
    2 [0] 0 0
    (fun f x0 => by simp only [wOpt]; decide)
    (by decide)
    (by simp [wOpt])
    (by simp [wOpt])
    (fun k x hx => by
      have hx2 : x ∈ List.replicate k (cBounds.map Prod.fst) := hx
      rw [List.eq_of_mem_replicate hx2]
      decide)
    (fun X Y p h => by
      injection h with h2
      subst h2
      decide)
    (fun Xs w k hXs c hc => hXs c (List.take_subset k Xs hc))
    (by decide)

end GPyOpt
